import Mathlib

/-!
# Verification of the JEOD Euler-angle conversion engine

Shallow embedding of `models/utils/orientation/src/euler_angles.cc`:
the twelve-entry Euler sequence metadata table, the angles→quaternion and
angles→matrix constructions, and the matrix→angles extraction with its
gimbal-lock handling.  Machine doubles are idealized as exact real numbers,
and the C math library functions (`sin`, `cos`, `asin`, `acos`, `atan2`,
`sqrt`, `fabs`) as well as `M_PI` are modelled by their exact Mathlib
counterparts on `ℝ`.  The two small external utilities (3×3 matrix product
and zero-initialization, quaternion product and normalization) are not part
of the reviewed source; they are modelled from their interface
specification where noted.
-/

open Real

namespace JeodOrientation

noncomputable section

/-- Three-element array, indexed as a C array `x[3]`. -/
def fin3 {α : Type} (x y z : α) : Fin 3 → α
  | 0 => x
  | 1 => y
  | 2 => z

/-- A 3×3 real matrix, as the C type `double[3][3]`. -/
def Mat3 : Type := Fin 3 → Fin 3 → ℝ

/-- Row-major 3×3 matrix literal. -/
def mat3 (a00 a01 a02 a10 a11 a12 a20 a21 a22 : ℝ) : Mat3 :=
  fin3 (fin3 a00 a01 a02) (fin3 a10 a11 a12) (fin3 a20 a21 a22)

/-- Modelled from the spec: `Matrix3x3::product (A, B) -> C` with standard
row-major multiplication semantics `C = A·B` (§6); the matrix utility itself
is outside the reviewed source. -/
def matProduct (A B : Mat3) : Mat3 :=
  fun i j => A i 0 * B 0 j + A i 1 * B 1 j + A i 2 * B 2 j

/-- The C type `struct EulerInfo` (euler_angles.cc lines 51-90): data needed to build a
transformation matrix from an Euler sequence and to extract the angles. -/
structure EulerInfo where
  /-- The axes about which the rotations are performed (X=0, Y=1, Z=2). -/
  indices : Fin 3 → Fin 3
  /-- Initial element of the sequence for aerodynamics sequences; index of
  the omitted axis for astronomical sequences. -/
  alternate_x : Fin 3
  /-- Final element of the sequence for aerodynamics sequences; index of
  the omitted axis for astronomical sequences. -/
  alternate_z : Fin 3
  /-- Whether the 3-axis sequence obtained by replacing the final element is
  an even permutation of XYZ. -/
  is_even_permutation : Bool
  /-- True for aerodynamics (asymmetric) sequences, false for astronomical
  (symmetric) sequences. -/
  is_aerodynamics_sequence : Bool
  deriving DecidableEq

/-- The table `static const EulerInfo Euler_info[12]` (euler_angles.cc lines 98-112),
indexed per the `Orientation::EulerSequence` enumeration. -/
def Euler_info : Fin 12 → EulerInfo
  | 0 => ⟨fin3 0 1 2, 0, 2, true, true⟩    -- EulerXYZ
  | 1 => ⟨fin3 0 2 1, 0, 1, false, true⟩   -- EulerXZY
  | 2 => ⟨fin3 1 2 0, 1, 0, true, true⟩    -- EulerYZX
  | 3 => ⟨fin3 1 0 2, 1, 2, false, true⟩   -- EulerYXZ
  | 4 => ⟨fin3 2 0 1, 2, 1, true, true⟩    -- EulerZXY
  | 5 => ⟨fin3 2 1 0, 2, 0, false, true⟩   -- EulerZYX
  | 6 => ⟨fin3 0 1 0, 2, 2, true, false⟩   -- EulerXYX
  | 7 => ⟨fin3 0 2 0, 1, 1, false, false⟩  -- EulerXZX
  | 8 => ⟨fin3 1 2 1, 0, 0, true, false⟩   -- EulerYZY
  | 9 => ⟨fin3 1 0 1, 2, 2, false, false⟩  -- EulerYXY
  | 10 => ⟨fin3 2 0 2, 1, 1, true, false⟩  -- EulerZXZ
  | 11 => ⟨fin3 2 1 2, 0, 0, false, false⟩ -- EulerZYZ

/-- The constant `Orientation::gimbal_lock_threshold = 1e-13` (euler_angles.cc line 43). -/
def gimbal_lock_threshold : ℝ := 1 / 10 ^ 13

/-- One elementary rotation matrix as built by an iteration of the loop in
`compute_matrix_from_euler_angles` (lines 189-218): `Matrix3x3::initialize`
zeroes the matrix (the zeroing is modelled from the spec, §6) and the
`switch` on the axis sets the listed entries. -/
def elemMatrix : Fin 3 → ℝ → Mat3
  | 0, t => mat3 1 0 0 0 (cos t) (sin t) 0 (-sin t) (cos t)
  | 1, t => mat3 (cos t) 0 (-sin t) 0 1 0 (sin t) 0 (cos t)
  | 2, t => mat3 (cos t) (sin t) 0 (-sin t) (cos t) 0 0 0 1

/-- Body of `Orientation::compute_matrix_from_euler_angles` after sequence
validation (lines 186-223): the three elementary matrices are composed in
reverse order, `trans = m[2] · m[1] · m[0]`. -/
def matrixFromEuler (s : Fin 12) (angles : Fin 3 → ℝ) : Mat3 :=
  let axes := (Euler_info s).indices
  matProduct
    (matProduct (elemMatrix (axes 2) (angles 2)) (elemMatrix (axes 1) (angles 1)))
    (elemMatrix (axes 0) (angles 0))

/-- The function `Orientation::compute_matrix_from_euler_angles` (lines 170-224): an
invalid sequence identifier leaves the output argument `trans` unchanged and
issues one diagnostic report (modelled by the `ℕ` report count); otherwise
the matrix is computed and no report is issued.  The enumeration ordinals
(EulerXYZ = 0 through EulerZYZ = 11) are modelled from the spec since the
enum declaration lies outside the reviewed source. -/
def compute_matrix_from_euler_angles (euler_sequence : ℤ) (euler_angles : Fin 3 → ℝ)
    (trans : Mat3) : Mat3 × ℕ :=
  if h : euler_sequence < 0 ∨ 11 < euler_sequence then (trans, 1)
  else (matrixFromEuler ⟨euler_sequence.toNat, by omega⟩ euler_angles, 0)

/-- Left transformation quaternion: scalar part plus 3-vector part. -/
structure Quat where
  scalar : ℝ
  vector : Fin 3 → ℝ

/-- Modelled from the spec: quaternion product `result = lhs · rhs` in the
Hamilton convention (§6); `Quaternion::multiply` is outside the reviewed
source. -/
def quatMul (p q : Quat) : Quat where
  scalar := p.scalar * q.scalar -
    (p.vector 0 * q.vector 0 + p.vector 1 * q.vector 1 + p.vector 2 * q.vector 2)
  vector := fin3
    (p.scalar * q.vector 0 + q.scalar * p.vector 0 +
      (p.vector 1 * q.vector 2 - p.vector 2 * q.vector 1))
    (p.scalar * q.vector 1 + q.scalar * p.vector 1 +
      (p.vector 2 * q.vector 0 - p.vector 0 * q.vector 2))
    (p.scalar * q.vector 2 + q.scalar * p.vector 2 +
      (p.vector 0 * q.vector 1 - p.vector 1 * q.vector 0))

/-- Squared norm of a quaternion. -/
def quatNormSq (q : Quat) : ℝ :=
  q.scalar ^ 2 + q.vector 0 ^ 2 + q.vector 1 ^ 2 + q.vector 2 ^ 2

/-- Norm of a quaternion. -/
def quatNorm (q : Quat) : ℝ := Real.sqrt (quatNormSq q)

/-- Modelled from the spec: `Quaternion::normalize` divides by the norm in
place and is a no-op when the norm is zero (§6); it is outside the reviewed
source. -/
def quatNormalize (q : Quat) : Quat :=
  if quatNorm q = 0 then q
  else ⟨q.scalar / quatNorm q, fun k => q.vector k / quatNorm q⟩

/-- One elementary quaternion as built by an iteration of the loop in
`compute_quaternion_from_euler_angles` (lines 145-151): scalar part
`cos(angle/2)`, vector component `axes[ii]` set to `-sin(angle/2)`, the
other vector components zero (the default-constructed zero vector is
modelled from the spec, §4.2). -/
def elemQuat (axis : Fin 3) (t : ℝ) : Quat :=
  ⟨cos (0.5 * t), fun k => if k = axis then -sin (0.5 * t) else 0⟩

/-- Body of `Orientation::compute_quaternion_from_euler_angles` after
sequence validation (lines 142-157): reverse-order product of the three
elementary quaternions, then normalization. -/
def quatFromEuler (s : Fin 12) (angles : Fin 3 → ℝ) : Quat :=
  let axes := (Euler_info s).indices
  quatNormalize
    (quatMul
      (quatMul (elemQuat (axes 2) (angles 2)) (elemQuat (axes 1) (angles 1)))
      (elemQuat (axes 0) (angles 0)))

/-- The function `Orientation::compute_quaternion_from_euler_angles` (lines 125-158),
with validation modelled as in `compute_matrix_from_euler_angles`. -/
def compute_quaternion_from_euler_angles (euler_sequence : ℤ)
    (euler_angles : Fin 3 → ℝ) (quat : Quat) : Quat × ℕ :=
  if h : euler_sequence < 0 ∨ 11 < euler_sequence then (quat, 1)
  else (quatFromEuler ⟨euler_sequence.toNat, by omega⟩ euler_angles, 0)

/-- The read `theta_val = trans[info.indices[2]][info.indices[0]]` (line 342). -/
def thetaValRaw (s : Fin 12) (M : Mat3) : ℝ :=
  M ((Euler_info s).indices 2) ((Euler_info s).indices 0)

/-- The read `sin_phi = trans[info.indices[2]][info.indices[1]]` (line 346). -/
def sinPhiRaw (s : Fin 12) (M : Mat3) : ℝ :=
  M ((Euler_info s).indices 2) ((Euler_info s).indices 1)

/-- The read `cos_phi = trans[info.indices[2]][info.alternate_z]` (line 347). -/
def cosPhiRaw (s : Fin 12) (M : Mat3) : ℝ :=
  M ((Euler_info s).indices 2) ((Euler_info s).alternate_z)

/-- The read `sin_psi = trans[info.indices[1]][info.indices[0]]` (line 348). -/
def sinPsiRaw (s : Fin 12) (M : Mat3) : ℝ :=
  M ((Euler_info s).indices 1) ((Euler_info s).indices 0)

/-- The read `cos_psi = trans[info.alternate_x][info.indices[0]]` (line 349). -/
def cosPsiRaw (s : Fin 12) (M : Mat3) : ℝ :=
  M ((Euler_info s).alternate_x) ((Euler_info s).indices 0)

/-- The value `alt_theta_val1 = sqrt(sin_phi^2 + cos_phi^2)` (line 352). -/
def altThetaVal1 (s : Fin 12) (M : Mat3) : ℝ :=
  Real.sqrt (sinPhiRaw s M ^ 2 + cosPhiRaw s M ^ 2)

/-- The value `alt_theta_val2 = sqrt(sin_psi^2 + cos_psi^2)` (line 353). -/
def altThetaVal2 (s : Fin 12) (M : Mat3) : ℝ :=
  Real.sqrt (sinPsiRaw s M ^ 2 + cosPsiRaw s M ^ 2)

/-- The value `alt_theta_val = 0.5 * (alt_theta_val1 + alt_theta_val2)` (line 354). -/
def altThetaVal (s : Fin 12) (M : Mat3) : ℝ :=
  0.5 * (altThetaVal1 s M + altThetaVal2 s M)

/-- The value `theta_val`, negated for odd-permutation aerodynamics sequences
(lines 356-360). -/
def thetaVal (s : Fin 12) (M : Mat3) : ℝ :=
  if (Euler_info s).is_aerodynamics_sequence && !(Euler_info s).is_even_permutation
  then -(thetaValRaw s M) else thetaValRaw s M

/-- The middle angle `theta` (lines 363-391). -/
def thetaOf (s : Fin 12) (M : Mat3) : ℝ :=
  if altThetaVal s M < |thetaVal s M| then
    if (Euler_info s).is_aerodynamics_sequence then
      if thetaVal s M < 0 then -(0.5 * π) + arcsin (altThetaVal s M)
      else 0.5 * π - arcsin (altThetaVal s M)
    else
      if thetaVal s M < 0 then π - arcsin (altThetaVal s M)
      else arcsin (altThetaVal s M)
  else
    if (Euler_info s).is_aerodynamics_sequence then arcsin (thetaVal s M)
    else arccos (thetaVal s M)

/-- The value the inverse-trig function is applied to when `theta` is
computed (lines 363-391): `alt_theta_val` feeds `asin` in the first branch,
`theta_val` (of magnitude `|theta_val|`) feeds `asin`/`acos` in the second. -/
def thetaTrigArg (s : Fin 12) (M : Mat3) : ℝ :=
  if altThetaVal s M < |thetaVal s M| then altThetaVal s M else |thetaVal s M|

/-- The function `std::atan2 (y, x)`, modelled exactly as the argument of the complex
number `x + y·i`, valued in `(-π, π]`. -/
def atan2 (y x : ℝ) : ℝ := Complex.arg ⟨x, y⟩

/-- The angles `phi` and `psi` of the non-gimbal-lock branch (lines 404-432), with the
class- and permutation-dependent sign corrections. -/
def phiPsiRegular (s : Fin 12) (M : Mat3) : ℝ × ℝ :=
  let info := Euler_info s
  let sp := sinPhiRaw s M
  let cp := cosPhiRaw s M
  let sps := sinPsiRaw s M
  let cps := cosPsiRaw s M
  if info.is_aerodynamics_sequence then
    if info.is_even_permutation then (atan2 (-sp) cp, atan2 (-sps) cps)
    else (atan2 sp cp, atan2 sps cps)
  else
    if info.is_even_permutation then (atan2 sp (-cp), atan2 sps cps)
    else (atan2 sp cp, atan2 sps (-cps))

/-- The angle `phi` of the gimbal-lock branch (lines 439-453): read
`trans[info.indices[1]][info.alternate_z]` (negated for odd permutations)
and `trans[info.indices[1]][info.indices[1]]`. -/
def phiLock (s : Fin 12) (M : Mat3) : ℝ :=
  let info := Euler_info s
  let sp := M (info.indices 1) info.alternate_z
  let cp := M (info.indices 1) (info.indices 1)
  atan2 (if info.is_even_permutation then sp else -sp) cp

/-- Body of `Orientation::compute_euler_angles_from_matrix` after sequence
validation (lines 320-460): the regular branch is taken when
`alt_theta_val > gimbal_lock_threshold`, the gimbal-lock branch (with
`psi = 0`) otherwise; output order is `(phi, theta, psi)`. -/
def anglesFromMatrix (s : Fin 12) (M : Mat3) : ℝ × ℝ × ℝ :=
  if altThetaVal s M > gimbal_lock_threshold
  then ((phiPsiRegular s M).1, thetaOf s M, (phiPsiRegular s M).2)
  else (phiLock s M, thetaOf s M, 0)

/-- The function `Orientation::compute_euler_angles_from_matrix` (lines 304-461), with
validation modelled as in `compute_matrix_from_euler_angles`. -/
def compute_euler_angles_from_matrix (trans : Mat3) (euler_sequence : ℤ)
    (euler_angles : ℝ × ℝ × ℝ) : (ℝ × ℝ × ℝ) × ℕ :=
  if h : euler_sequence < 0 ∨ 11 < euler_sequence then (euler_angles, 1)
  else (anglesFromMatrix ⟨euler_sequence.toNat, by omega⟩ trans, 0)

/-- Modelled from the spec: the §4.1 sequence-descriptor table, written out
row by row exactly as the spec's table states it (axes, altFirst, altLast,
isEven, class with `true` = asymmetric/aerodynamics). -/
def specTable : Fin 12 → EulerInfo
  | 0 => ⟨fin3 0 1 2, 0, 2, true, true⟩
  | 1 => ⟨fin3 0 2 1, 0, 1, false, true⟩
  | 2 => ⟨fin3 1 2 0, 1, 0, true, true⟩
  | 3 => ⟨fin3 1 0 2, 1, 2, false, true⟩
  | 4 => ⟨fin3 2 0 1, 2, 1, true, true⟩
  | 5 => ⟨fin3 2 1 0, 2, 0, false, true⟩
  | 6 => ⟨fin3 0 1 0, 2, 2, true, false⟩
  | 7 => ⟨fin3 0 2 0, 1, 1, false, false⟩
  | 8 => ⟨fin3 1 2 1, 0, 0, true, false⟩
  | 9 => ⟨fin3 1 0 1, 2, 2, false, false⟩
  | 10 => ⟨fin3 2 0 2, 1, 1, true, false⟩
  | 11 => ⟨fin3 2 1 2, 0, 0, false, false⟩

/-- The all-zero matrix, used as a concrete pre-call output value. -/
def zeroMat : Mat3 := mat3 0 0 0 0 0 0 0 0 0

/-- Concrete non-orthonormal input showing which theta source feeds the
inverse-trig call: here `theta_val = 1` and `alt_theta_val = 1/2`. -/
def c4Matrix : Mat3 := mat3 0 0 0 0.5 0 0 1 0.5 0

/-! ## Unfolding lemmas for the array and matrix constructors -/

@[simp] theorem fin3_zero {α : Type} (x y z : α) : fin3 x y z 0 = x := rfl

@[simp] theorem fin3_one {α : Type} (x y z : α) : fin3 x y z 1 = y := rfl

@[simp] theorem fin3_two {α : Type} (x y z : α) : fin3 x y z 2 = z := rfl

@[simp] theorem mat3_def (a00 a01 a02 a10 a11 a12 a20 a21 a22 : ℝ) :
    mat3 a00 a01 a02 a10 a11 a12 a20 a21 a22 =
      fin3 (fin3 a00 a01 a02) (fin3 a10 a11 a12) (fin3 a20 a21 a22) := rfl

@[simp] theorem matProduct_apply (A B : Mat3) (i j : Fin 3) :
    matProduct A B i j = A i 0 * B 0 j + A i 1 * B 1 j + A i 2 * B 2 j := rfl

@[simp] theorem elemMatrix_x (t : ℝ) :
    elemMatrix 0 t = mat3 1 0 0 0 (cos t) (sin t) 0 (-sin t) (cos t) := rfl

@[simp] theorem elemMatrix_y (t : ℝ) :
    elemMatrix 1 t = mat3 (cos t) 0 (-sin t) 0 1 0 (sin t) 0 (cos t) := rfl

@[simp] theorem elemMatrix_z (t : ℝ) :
    elemMatrix 2 t = mat3 (cos t) (sin t) 0 (-sin t) (cos t) 0 0 0 1 := rfl

/-! ## Basic facts about the extraction quantities -/

theorem altThetaVal1_nonneg (s : Fin 12) (M : Mat3) : 0 ≤ altThetaVal1 s M :=
  Real.sqrt_nonneg _

theorem altThetaVal2_nonneg (s : Fin 12) (M : Mat3) : 0 ≤ altThetaVal2 s M :=
  Real.sqrt_nonneg _

theorem altThetaVal_nonneg (s : Fin 12) (M : Mat3) : 0 ≤ altThetaVal s M := by
  have h1 := altThetaVal1_nonneg s M
  have h2 := altThetaVal2_nonneg s M
  unfold altThetaVal
  linarith

/-! ## C7: the metadata table -/

/-- C7: the descriptor table has exactly twelve entries, indexed 1:1 by the
sequence enumeration in the order XYZ, XZY, YZX, YXZ, ZXY, ZYX, XYX, XZX,
YZY, YXY, ZXZ, ZYZ, and every entry's (axes, altFirst, altLast,
isEvenPermutation, class) fields are exactly the §4.1 table values. -/
theorem euler_info_matches_spec_table : ∀ s : Fin 12, Euler_info s = specTable s := by
  intro s
  fin_cases s <;> rfl

/-! ## C3: invalid-sequence atomicity -/

/-- C3: for every sequence identifier outside [0,11], each of the three
operations leaves its output argument exactly at its pre-call value, issues
exactly one diagnostic report (the `ℕ` component), and returns normally. -/
theorem invalid_sequence_is_atomic (euler_sequence : ℤ)
    (h : euler_sequence < 0 ∨ 11 < euler_sequence) :
    (∀ (a : Fin 3 → ℝ) (q : Quat),
      compute_quaternion_from_euler_angles euler_sequence a q = (q, 1)) ∧
    (∀ (a : Fin 3 → ℝ) (t : Mat3),
      compute_matrix_from_euler_angles euler_sequence a t = (t, 1)) ∧
    (∀ (t : Mat3) (a : ℝ × ℝ × ℝ),
      compute_euler_angles_from_matrix t euler_sequence a = (a, 1)) := by
  refine ⟨fun a q => ?_, fun a t => ?_, fun t a => ?_⟩
  · unfold compute_quaternion_from_euler_angles
    rw [dif_pos h]
  · unfold compute_matrix_from_euler_angles
    rw [dif_pos h]
  · unfold compute_euler_angles_from_matrix
    rw [dif_pos h]

/-- Witness for C3 at the out-of-range identifier 12. -/
theorem invalid_sequence_is_atomic_witness :
    ((12 : ℤ) < 0 ∨ 11 < (12 : ℤ)) ∧
    compute_matrix_from_euler_angles 12 (fin3 0 0 0) zeroMat = (zeroMat, 1) :=
  ⟨Or.inr (by norm_num),
   (invalid_sequence_is_atomic 12 (Or.inr (by norm_num))).2.1 (fin3 0 0 0) zeroMat⟩

/-! ## C2: gimbal-lock handling -/

/-- C2: the extraction takes the gimbal-lock branch exactly when
`r = (sqrt(sin_phi²+cos_phi²) + sqrt(sin_psi²+cos_psi²))/2 ≤ 1e-13`, and in
that branch returns `psi = 0` and
`phi = atan2(s, M[axes[1]][axes[1]])` with `s = M[axes[1]][altLast]`,
negated for odd-permutation sequences. -/
theorem gimbal_lock_characterization (s : Fin 12) (M : Mat3) :
    anglesFromMatrix s M =
      if 0.5 * (Real.sqrt (sinPhiRaw s M ^ 2 + cosPhiRaw s M ^ 2) +
          Real.sqrt (sinPsiRaw s M ^ 2 + cosPsiRaw s M ^ 2)) ≤ gimbal_lock_threshold
      then (atan2
              (if (Euler_info s).is_even_permutation
               then M ((Euler_info s).indices 1) ((Euler_info s).alternate_z)
               else -(M ((Euler_info s).indices 1) ((Euler_info s).alternate_z)))
              (M ((Euler_info s).indices 1) ((Euler_info s).indices 1)),
            thetaOf s M, 0)
      else ((phiPsiRegular s M).1, thetaOf s M, (phiPsiRegular s M).2) := by
  have e : 0.5 * (Real.sqrt (sinPhiRaw s M ^ 2 + cosPhiRaw s M ^ 2) +
      Real.sqrt (sinPsiRaw s M ^ 2 + cosPsiRaw s M ^ 2)) = altThetaVal s M := rfl
  rw [e]
  unfold anglesFromMatrix
  rcases le_or_lt (altThetaVal s M) gimbal_lock_threshold with h | h
  · rw [if_neg (not_lt.mpr h), if_pos h]
    rfl
  · rw [if_pos h, if_neg (not_le.mpr h)]

/-! ## C4: theta-source selection -/

/-- C4 counterexample: at sequence XYZ and a matrix with `theta_val = 1`,
`r = 1/2`, the inverse-trig function receives `1/2` — the smaller of the
two source magnitudes, not the larger (which is `1`). -/
theorem theta_source_not_larger_counterexample :
    thetaTrigArg 0 c4Matrix = 1 / 2 ∧
    max (altThetaVal 0 c4Matrix) |thetaVal 0 c4Matrix| = 1 ∧
    (1 / 2 : ℝ) ≠ 1 := by
  have hsqrt : Real.sqrt ((0.5 : ℝ) ^ 2 + 0 ^ 2) = 0.5 := by
    rw [show ((0.5 : ℝ) ^ 2 + 0 ^ 2) = (0.5 : ℝ) ^ 2 by ring]
    exact Real.sqrt_sq (by norm_num)
  have halt : altThetaVal 0 c4Matrix = 1 / 2 := by
    have e1 : sinPhiRaw 0 c4Matrix = 0.5 := rfl
    have e2 : cosPhiRaw 0 c4Matrix = 0 := rfl
    have e3 : sinPsiRaw 0 c4Matrix = 0.5 := rfl
    have e4 : cosPsiRaw 0 c4Matrix = 0 := rfl
    unfold altThetaVal altThetaVal1 altThetaVal2
    rw [e1, e2, e3, e4, hsqrt]
    norm_num
  have htv : thetaVal 0 c4Matrix = 1 := rfl
  refine ⟨?_, ?_, by norm_num⟩
  · unfold thetaTrigArg
    rw [halt, htv]
    rw [if_pos (by rw [abs_one]; norm_num)]
  · rw [halt, htv, abs_one]
    norm_num

/-- C4 amended: the inverse-trig function is always applied to whichever of
the two source values, `|theta_val|` or `r`, has the *smaller* magnitude
(`r` exactly when `r < |theta_val|`). -/
theorem theta_source_is_smaller (s : Fin 12) (M : Mat3) :
    thetaTrigArg s M = min (altThetaVal s M) |thetaVal s M| := by
  unfold thetaTrigArg
  rcases lt_or_le (altThetaVal s M) |thetaVal s M| with h | h
  · rw [if_pos h, min_eq_left h.le]
  · rw [if_neg (not_lt.mpr h), min_eq_right h]

/-! ## C5: elementary-matrix sign convention -/

/-- C5 counterexample: for the Y axis the elementary matrix has its
`row < col` sine entry equal to `-sin(angle)`, not `+sin(angle)`: at
angle π/2, entry [0][2] is −1 while sin(π/2) = 1. -/
theorem elem_sign_convention_counterexample :
    elemMatrix 1 (π / 2) 0 2 = -1 ∧ sin (π / 2) = 1 ∧ ((-1 : ℝ) ≠ 1) := by
  refine ⟨?_, Real.sin_pi_div_two, by norm_num⟩
  show -sin (π / 2) = -1
  rw [Real.sin_pi_div_two]

/-- C5 amended: each stage matrix has entry 1 at the rotated-axis diagonal
position and cos(angle) at the other two diagonal positions; in the
off-diagonal sine block, for axes X and Z the `row < col` entry is
`+sin(angle)` and the `row > col` entry is `-sin(angle)`, while for axis Y
the pattern is reversed (`row < col` is `-sin`, `row > col` is `+sin`). -/
theorem elem_matrix_sign_convention (t : ℝ) :
    (elemMatrix 0 t 0 0 = 1 ∧ elemMatrix 0 t 1 1 = cos t ∧ elemMatrix 0 t 2 2 = cos t ∧
      elemMatrix 0 t 1 2 = sin t ∧ elemMatrix 0 t 2 1 = -sin t) ∧
    (elemMatrix 1 t 1 1 = 1 ∧ elemMatrix 1 t 0 0 = cos t ∧ elemMatrix 1 t 2 2 = cos t ∧
      elemMatrix 1 t 0 2 = -sin t ∧ elemMatrix 1 t 2 0 = sin t) ∧
    (elemMatrix 2 t 2 2 = 1 ∧ elemMatrix 2 t 0 0 = cos t ∧ elemMatrix 2 t 1 1 = cos t ∧
      elemMatrix 2 t 0 1 = sin t ∧ elemMatrix 2 t 1 0 = -sin t) :=
  ⟨⟨rfl, rfl, rfl, rfl, rfl⟩, ⟨rfl, rfl, rfl, rfl, rfl⟩, ⟨rfl, rfl, rfl, rfl, rfl⟩⟩

/-! ## C10: the extraction depends only on seven matrix entries -/

/-- C10: if two input matrices agree on the seven descriptor-indexed
elements read by the extraction, the extraction returns identical angle
triples; no other entry influences the result. -/
theorem extraction_reads_seven_entries (s : Fin 12) (M N : Mat3)
    (h1 : M ((Euler_info s).indices 2) ((Euler_info s).indices 0) =
          N ((Euler_info s).indices 2) ((Euler_info s).indices 0))
    (h2 : M ((Euler_info s).indices 2) ((Euler_info s).indices 1) =
          N ((Euler_info s).indices 2) ((Euler_info s).indices 1))
    (h3 : M ((Euler_info s).indices 2) ((Euler_info s).alternate_z) =
          N ((Euler_info s).indices 2) ((Euler_info s).alternate_z))
    (h4 : M ((Euler_info s).indices 1) ((Euler_info s).indices 0) =
          N ((Euler_info s).indices 1) ((Euler_info s).indices 0))
    (h5 : M ((Euler_info s).alternate_x) ((Euler_info s).indices 0) =
          N ((Euler_info s).alternate_x) ((Euler_info s).indices 0))
    (h6 : M ((Euler_info s).indices 1) ((Euler_info s).alternate_z) =
          N ((Euler_info s).indices 1) ((Euler_info s).alternate_z))
    (h7 : M ((Euler_info s).indices 1) ((Euler_info s).indices 1) =
          N ((Euler_info s).indices 1) ((Euler_info s).indices 1)) :
    anglesFromMatrix s M = anglesFromMatrix s N := by
  simp only [anglesFromMatrix, thetaOf, phiPsiRegular, phiLock, altThetaVal,
    altThetaVal1, altThetaVal2, thetaVal, thetaValRaw, sinPhiRaw, cosPhiRaw,
    sinPsiRaw, cosPsiRaw]
  rw [h1, h2, h3, h4, h5, h6, h7]

/-- Witness for C10 at sequence XYZ and a pair of equal concrete inputs. -/
theorem extraction_reads_seven_entries_witness :
    anglesFromMatrix 0 zeroMat = anglesFromMatrix 0 zeroMat :=
  extraction_reads_seven_entries 0 zeroMat zeroMat rfl rfl rfl rfl rfl rfl rfl

/-! ## C9: range of the middle angle -/

/-- C9: for every valid sequence and matrix with `|theta_val| ≤ 1` (part of
the orthonormality precondition), the returned middle angle lies in
[−π/2, π/2] for aerodynamics sequences and in [0, π] for astronomical
sequences, in both theta-source branches. -/
theorem middle_angle_range (s : Fin 12) (M : Mat3)
    (h : |thetaVal s M| ≤ 1) :
    ((Euler_info s).is_aerodynamics_sequence = true →
      -(π / 2) ≤ (anglesFromMatrix s M).2.1 ∧ (anglesFromMatrix s M).2.1 ≤ π / 2) ∧
    ((Euler_info s).is_aerodynamics_sequence = false →
      0 ≤ (anglesFromMatrix s M).2.1 ∧ (anglesFromMatrix s M).2.1 ≤ π) := by
  have hmid : (anglesFromMatrix s M).2.1 = thetaOf s M := by
    unfold anglesFromMatrix
    split <;> rfl
  have halt : 0 ≤ altThetaVal s M := altThetaVal_nonneg s M
  have ha1 : 0 ≤ arcsin (altThetaVal s M) := Real.arcsin_nonneg.mpr halt
  have ha2 : arcsin (altThetaVal s M) ≤ π / 2 := Real.arcsin_le_pi_div_two _
  have hb1 : -(π / 2) ≤ arcsin (thetaVal s M) := Real.neg_pi_div_two_le_arcsin _
  have hb2 : arcsin (thetaVal s M) ≤ π / 2 := Real.arcsin_le_pi_div_two _
  have hc1 : 0 ≤ arccos (thetaVal s M) := Real.arccos_nonneg _
  have hc2 : arccos (thetaVal s M) ≤ π := Real.arccos_le_pi _
  have hπ : 0 < π := Real.pi_pos
  rw [hmid]
  constructor <;> intro hclass <;> unfold thetaOf <;>
    simp only [hclass, Bool.false_eq_true, eq_self_iff_true, if_true, if_false,
      ite_true, ite_false] <;>
    split_ifs <;> constructor <;> linarith

/-- Witness for C9 at sequence XYZ and the zero matrix. -/
theorem middle_angle_range_witness :
    |thetaVal 0 zeroMat| ≤ 1 ∧
    (((Euler_info 0).is_aerodynamics_sequence = true →
      -(π / 2) ≤ (anglesFromMatrix 0 zeroMat).2.1 ∧
        (anglesFromMatrix 0 zeroMat).2.1 ≤ π / 2) ∧
     ((Euler_info 0).is_aerodynamics_sequence = false →
      0 ≤ (anglesFromMatrix 0 zeroMat).2.1 ∧ (anglesFromMatrix 0 zeroMat).2.1 ≤ π)) :=
  ⟨by rw [show thetaVal 0 zeroMat = 0 from rfl]; norm_num,
   middle_angle_range 0 zeroMat
     (by rw [show thetaVal 0 zeroMat = 0 from rfl]; norm_num)⟩

/-! ## Round-trip helper lemmas -/

theorem atan2_mul_sin_cos {c α : ℝ} (hc : 0 < c) (hα : α ∈ Set.Ioc (-π) π) :
    atan2 (c * sin α) (c * cos α) = α := by
  have key := Complex.arg_mul_cos_add_sin_mul_I hc hα
  have e : ((c : ℂ) * (Complex.cos α + Complex.sin α * Complex.I)) =
      (⟨c * cos α, c * sin α⟩ : ℂ) := by
    rw [← Complex.ofReal_cos, ← Complex.ofReal_sin, Complex.mk_eq_add_mul_I]
    push_cast
    ring
  unfold atan2
  rw [← e]
  exact key

theorem arcsin_cos_eq {θ : ℝ} (h1 : -(π / 2) ≤ θ) (h2 : θ ≤ π / 2) :
    arcsin (cos θ) = π / 2 - |θ| := by
  have hπ := Real.pi_pos
  rcases le_or_lt 0 θ with h | h
  · rw [abs_of_nonneg h, ← Real.sin_pi_div_two_sub]
    exact Real.arcsin_sin (by linarith) (by linarith)
  · have e : Real.sin (π / 2 - -θ) = Real.cos (-θ) := Real.sin_pi_div_two_sub (-θ)
    rw [Real.cos_neg] at e
    rw [abs_of_neg h, ← e, Real.arcsin_sin (by linarith) (by linarith)]

theorem sin_mono_interval {a θ : ℝ} (ha : 0 < a) (ha2 : a ≤ π / 2) (h1 : a ≤ θ)
    (h2 : θ ≤ π - a) : sin a ≤ sin θ := by
  have hπ := Real.pi_pos
  rcases le_or_lt θ (π / 2) with h | h
  · exact Real.sin_le_sin_of_le_of_le_pi_div_two (by linarith) h h1
  · rw [← Real.sin_pi_sub θ]
    exact Real.sin_le_sin_of_le_of_le_pi_div_two (by linarith) (by linarith) (by linarith)

theorem threshold_lt_sin_margin : gimbal_lock_threshold < sin (1 / 10 ^ 6) := by
  have h := Real.sin_gt_sub_cube (by norm_num : (0 : ℝ) < 1 / 10 ^ 6) (by norm_num)
  unfold gimbal_lock_threshold
  norm_num at h ⊢
  linarith

theorem cos_ge_sin_margin {θ : ℝ} (hθ : |θ| ≤ π / 2 - 1 / 10 ^ 6) :
    sin (1 / 10 ^ 6) ≤ cos θ := by
  have hπ := Real.pi_pos
  have h2 : Real.cos (π / 2 - 1 / 10 ^ 6) ≤ Real.cos |θ| :=
    Real.cos_le_cos_of_nonneg_of_le_pi (abs_nonneg θ) (by linarith) hθ
  rw [Real.cos_pi_div_two_sub, Real.cos_abs] at h2
  exact h2

theorem sqrt_sum_sq_eq {x y c : ℝ} (h : x ^ 2 + y ^ 2 = c ^ 2) (hc : 0 ≤ c) :
    Real.sqrt (x ^ 2 + y ^ 2) = c := by
  rw [h]
  exact Real.sqrt_sq hc

theorem altThetaVal_eq_of (s : Fin 12) (M : Mat3) (c : ℝ)
    (h1 : altThetaVal1 s M = c) (h2 : altThetaVal2 s M = c) :
    altThetaVal s M = c := by
  unfold altThetaVal
  rw [h1, h2]
  ring

theorem thetaOf_eq_aero (s : Fin 12) (M : Mat3) (θ : ℝ)
    (haero : (Euler_info s).is_aerodynamics_sequence = true)
    (htv : thetaVal s M = sin θ) (halt : altThetaVal s M = cos θ)
    (hb1 : -(π / 2) < θ) (hb2 : θ < π / 2) : thetaOf s M = θ := by
  have hπ := Real.pi_pos
  unfold thetaOf
  rw [haero, htv, halt]
  simp only [eq_self_iff_true, if_true, ite_true]
  by_cases hbr : cos θ < |sin θ|
  · rw [if_pos hbr, arcsin_cos_eq hb1.le hb2.le]
    by_cases hsg : sin θ < 0
    · rw [if_pos hsg]
      have hneg : θ < 0 := by
        by_contra hge
        push_neg at hge
        have := Real.sin_nonneg_of_nonneg_of_le_pi hge (by linarith)
        linarith
      rw [abs_of_neg hneg]
      ring
    · rw [if_neg hsg]
      have hge : 0 ≤ θ := by
        by_contra hlt
        push_neg at hlt
        exact hsg (Real.sin_neg_of_neg_of_neg_pi_lt hlt (by linarith))
      rw [abs_of_nonneg hge]
      ring
  · rw [if_neg hbr]
    exact Real.arcsin_sin hb1.le hb2.le

theorem thetaOf_eq_astro (s : Fin 12) (M : Mat3) (θ : ℝ)
    (hastro : (Euler_info s).is_aerodynamics_sequence = false)
    (htv : thetaVal s M = cos θ) (halt : altThetaVal s M = sin θ)
    (hb1 : 0 < θ) (hb2 : θ < π) : thetaOf s M = θ := by
  have hπ := Real.pi_pos
  unfold thetaOf
  rw [hastro, htv, halt]
  simp only [Bool.false_eq_true, if_false, ite_false]
  by_cases hbr : sin θ < |cos θ|
  · rw [if_pos hbr]
    by_cases hsg : cos θ < 0
    · rw [if_pos hsg]
      have hgt : π / 2 < θ := by
        by_contra hle
        push_neg at hle
        exact absurd (Real.cos_nonneg_of_mem_Icc (Set.mem_Icc.mpr ⟨by linarith, hle⟩))
          (not_le.mpr hsg)
      have e : arcsin (sin θ) = π - θ := by
        rw [← Real.sin_pi_sub θ, Real.arcsin_sin (by linarith) (by linarith)]
      rw [e]
      ring
    · rw [if_neg hsg]
      push_neg at hsg
      have hle : θ ≤ π / 2 := by
        by_contra hgt
        push_neg at hgt
        exact absurd (Real.cos_neg_of_pi_div_two_lt_of_lt hgt (by linarith))
          (not_lt.mpr hsg)
      exact Real.arcsin_sin (by linarith) hle
  · rw [if_neg hbr]
    exact Real.arccos_cos hb1.le hb2.le

theorem roundtrip_aero_even {s : Fin 12} {M : Mat3} {φ θ ψ : ℝ}
    (haero : (Euler_info s).is_aerodynamics_sequence = true)
    (heven : (Euler_info s).is_even_permutation = true)
    (hφ1 : -π < φ) (hφ2 : φ ≤ π) (hψ1 : -π < ψ) (hψ2 : ψ ≤ π)
    (hθ : |θ| ≤ π / 2 - 1 / 10 ^ 6)
    (htvr : thetaValRaw s M = sin θ)
    (hsp : sinPhiRaw s M = -(cos θ * sin φ))
    (hcp : cosPhiRaw s M = cos θ * cos φ)
    (hsps : sinPsiRaw s M = -(cos θ * sin ψ))
    (hcps : cosPsiRaw s M = cos θ * cos ψ) :
    anglesFromMatrix s M = (φ, θ, ψ) := by
  have hπ := Real.pi_pos
  have habs := abs_le.mp hθ
  have hb1 : -(π / 2) < θ := by linarith [habs.1]
  have hb2 : θ < π / 2 := by linarith [habs.2]
  have hc : 0 < cos θ := Real.cos_pos_of_mem_Ioo (Set.mem_Ioo.mpr ⟨hb1, hb2⟩)
  have htv : thetaVal s M = sin θ := by
    unfold thetaVal
    rw [haero, heven]
    simp only [Bool.not_true, Bool.and_false, Bool.false_eq_true, if_false, ite_false]
    exact htvr
  have halt1 : altThetaVal1 s M = cos θ := by
    unfold altThetaVal1
    rw [hsp, hcp]
    exact sqrt_sum_sq_eq (by linear_combination (cos θ) ^ 2 * Real.sin_sq_add_cos_sq φ) hc.le
  have halt2 : altThetaVal2 s M = cos θ := by
    unfold altThetaVal2
    rw [hsps, hcps]
    exact sqrt_sum_sq_eq (by linear_combination (cos θ) ^ 2 * Real.sin_sq_add_cos_sq ψ) hc.le
  have halt : altThetaVal s M = cos θ := altThetaVal_eq_of s M _ halt1 halt2
  have hthr : altThetaVal s M > gimbal_lock_threshold := by
    rw [halt]
    exact lt_of_lt_of_le threshold_lt_sin_margin (cos_ge_sin_margin hθ)
  have hθof : thetaOf s M = θ := thetaOf_eq_aero s M θ haero htv halt hb1 hb2
  have hpair : phiPsiRegular s M = (φ, ψ) := by
    simp only [phiPsiRegular]
    rw [haero, heven, hsp, hcp, hsps, hcps]
    simp only [eq_self_iff_true, if_true, ite_true, neg_neg]
    rw [atan2_mul_sin_cos hc (Set.mem_Ioc.mpr ⟨hφ1, hφ2⟩),
      atan2_mul_sin_cos hc (Set.mem_Ioc.mpr ⟨hψ1, hψ2⟩)]
  unfold anglesFromMatrix
  rw [if_pos hthr, hθof, hpair]

theorem roundtrip_aero_odd {s : Fin 12} {M : Mat3} {φ θ ψ : ℝ}
    (haero : (Euler_info s).is_aerodynamics_sequence = true)
    (hodd : (Euler_info s).is_even_permutation = false)
    (hφ1 : -π < φ) (hφ2 : φ ≤ π) (hψ1 : -π < ψ) (hψ2 : ψ ≤ π)
    (hθ : |θ| ≤ π / 2 - 1 / 10 ^ 6)
    (htvr : thetaValRaw s M = -sin θ)
    (hsp : sinPhiRaw s M = cos θ * sin φ)
    (hcp : cosPhiRaw s M = cos θ * cos φ)
    (hsps : sinPsiRaw s M = cos θ * sin ψ)
    (hcps : cosPsiRaw s M = cos θ * cos ψ) :
    anglesFromMatrix s M = (φ, θ, ψ) := by
  have hπ := Real.pi_pos
  have habs := abs_le.mp hθ
  have hb1 : -(π / 2) < θ := by linarith [habs.1]
  have hb2 : θ < π / 2 := by linarith [habs.2]
  have hc : 0 < cos θ := Real.cos_pos_of_mem_Ioo (Set.mem_Ioo.mpr ⟨hb1, hb2⟩)
  have htv : thetaVal s M = sin θ := by
    unfold thetaVal
    rw [haero, hodd]
    simp only [Bool.not_false, Bool.and_true, eq_self_iff_true, if_true, ite_true]
    rw [htvr]
    ring
  have halt1 : altThetaVal1 s M = cos θ := by
    unfold altThetaVal1
    rw [hsp, hcp]
    exact sqrt_sum_sq_eq (by linear_combination (cos θ) ^ 2 * Real.sin_sq_add_cos_sq φ) hc.le
  have halt2 : altThetaVal2 s M = cos θ := by
    unfold altThetaVal2
    rw [hsps, hcps]
    exact sqrt_sum_sq_eq (by linear_combination (cos θ) ^ 2 * Real.sin_sq_add_cos_sq ψ) hc.le
  have halt : altThetaVal s M = cos θ := altThetaVal_eq_of s M _ halt1 halt2
  have hthr : altThetaVal s M > gimbal_lock_threshold := by
    rw [halt]
    exact lt_of_lt_of_le threshold_lt_sin_margin (cos_ge_sin_margin hθ)
  have hθof : thetaOf s M = θ := thetaOf_eq_aero s M θ haero htv halt hb1 hb2
  have hpair : phiPsiRegular s M = (φ, ψ) := by
    simp only [phiPsiRegular]
    rw [haero, hodd, hsp, hcp, hsps, hcps]
    simp only [eq_self_iff_true, if_true, ite_true, Bool.false_eq_true, if_false, ite_false]
    rw [atan2_mul_sin_cos hc (Set.mem_Ioc.mpr ⟨hφ1, hφ2⟩),
      atan2_mul_sin_cos hc (Set.mem_Ioc.mpr ⟨hψ1, hψ2⟩)]
  unfold anglesFromMatrix
  rw [if_pos hthr, hθof, hpair]

theorem roundtrip_astro_even {s : Fin 12} {M : Mat3} {φ θ ψ : ℝ}
    (hastro : (Euler_info s).is_aerodynamics_sequence = false)
    (heven : (Euler_info s).is_even_permutation = true)
    (hφ1 : -π < φ) (hφ2 : φ ≤ π) (hψ1 : -π < ψ) (hψ2 : ψ ≤ π)
    (hθ1 : 1 / 10 ^ 6 ≤ θ) (hθ2 : θ ≤ π - 1 / 10 ^ 6)
    (htvr : thetaValRaw s M = cos θ)
    (hsp : sinPhiRaw s M = sin θ * sin φ)
    (hcp : cosPhiRaw s M = -(sin θ * cos φ))
    (hsps : sinPsiRaw s M = sin θ * sin ψ)
    (hcps : cosPsiRaw s M = sin θ * cos ψ) :
    anglesFromMatrix s M = (φ, θ, ψ) := by
  have hπ := Real.pi_pos
  have hmargin : (0 : ℝ) < 1 / 10 ^ 6 := by norm_num
  have hb1 : 0 < θ := by linarith
  have hb2 : θ < π := by linarith
  have hs : 0 < sin θ := Real.sin_pos_of_pos_of_lt_pi hb1 hb2
  have htv : thetaVal s M = cos θ := by
    unfold thetaVal
    rw [hastro]
    simp only [Bool.false_and, Bool.false_eq_true, if_false, ite_false]
    exact htvr
  have halt1 : altThetaVal1 s M = sin θ := by
    unfold altThetaVal1
    rw [hsp, hcp]
    exact sqrt_sum_sq_eq (by linear_combination (sin θ) ^ 2 * Real.sin_sq_add_cos_sq φ) hs.le
  have halt2 : altThetaVal2 s M = sin θ := by
    unfold altThetaVal2
    rw [hsps, hcps]
    exact sqrt_sum_sq_eq (by linear_combination (sin θ) ^ 2 * Real.sin_sq_add_cos_sq ψ) hs.le
  have halt : altThetaVal s M = sin θ := altThetaVal_eq_of s M _ halt1 halt2
  have hthr : altThetaVal s M > gimbal_lock_threshold := by
    rw [halt]
    have h3 := Real.pi_gt_three
    exact lt_of_lt_of_le threshold_lt_sin_margin
      (sin_mono_interval hmargin (by linarith) hθ1 hθ2)
  have hθof : thetaOf s M = θ := thetaOf_eq_astro s M θ hastro htv halt hb1 hb2
  have hpair : phiPsiRegular s M = (φ, ψ) := by
    simp only [phiPsiRegular]
    rw [hastro, heven, hsp, hcp, hsps, hcps]
    simp only [Bool.false_eq_true, if_false, ite_false, eq_self_iff_true, if_true,
      ite_true, neg_neg]
    rw [atan2_mul_sin_cos hs (Set.mem_Ioc.mpr ⟨hφ1, hφ2⟩),
      atan2_mul_sin_cos hs (Set.mem_Ioc.mpr ⟨hψ1, hψ2⟩)]
  unfold anglesFromMatrix
  rw [if_pos hthr, hθof, hpair]

theorem roundtrip_astro_odd {s : Fin 12} {M : Mat3} {φ θ ψ : ℝ}
    (hastro : (Euler_info s).is_aerodynamics_sequence = false)
    (hodd : (Euler_info s).is_even_permutation = false)
    (hφ1 : -π < φ) (hφ2 : φ ≤ π) (hψ1 : -π < ψ) (hψ2 : ψ ≤ π)
    (hθ1 : 1 / 10 ^ 6 ≤ θ) (hθ2 : θ ≤ π - 1 / 10 ^ 6)
    (htvr : thetaValRaw s M = cos θ)
    (hsp : sinPhiRaw s M = sin θ * sin φ)
    (hcp : cosPhiRaw s M = sin θ * cos φ)
    (hsps : sinPsiRaw s M = sin θ * sin ψ)
    (hcps : cosPsiRaw s M = -(sin θ * cos ψ)) :
    anglesFromMatrix s M = (φ, θ, ψ) := by
  have hπ := Real.pi_pos
  have hmargin : (0 : ℝ) < 1 / 10 ^ 6 := by norm_num
  have hb1 : 0 < θ := by linarith
  have hb2 : θ < π := by linarith
  have hs : 0 < sin θ := Real.sin_pos_of_pos_of_lt_pi hb1 hb2
  have htv : thetaVal s M = cos θ := by
    unfold thetaVal
    rw [hastro]
    simp only [Bool.false_and, Bool.false_eq_true, if_false, ite_false]
    exact htvr
  have halt1 : altThetaVal1 s M = sin θ := by
    unfold altThetaVal1
    rw [hsp, hcp]
    exact sqrt_sum_sq_eq (by linear_combination (sin θ) ^ 2 * Real.sin_sq_add_cos_sq φ) hs.le
  have halt2 : altThetaVal2 s M = sin θ := by
    unfold altThetaVal2
    rw [hsps, hcps]
    exact sqrt_sum_sq_eq (by linear_combination (sin θ) ^ 2 * Real.sin_sq_add_cos_sq ψ) hs.le
  have halt : altThetaVal s M = sin θ := altThetaVal_eq_of s M _ halt1 halt2
  have hthr : altThetaVal s M > gimbal_lock_threshold := by
    rw [halt]
    have h3 := Real.pi_gt_three
    exact lt_of_lt_of_le threshold_lt_sin_margin
      (sin_mono_interval hmargin (by linarith) hθ1 hθ2)
  have hθof : thetaOf s M = θ := thetaOf_eq_astro s M θ hastro htv halt hb1 hb2
  have hpair : phiPsiRegular s M = (φ, ψ) := by
    simp only [phiPsiRegular]
    rw [hastro, hodd, hsp, hcp, hsps, hcps]
    simp only [Bool.false_eq_true, if_false, ite_false, neg_neg]
    rw [atan2_mul_sin_cos hs (Set.mem_Ioc.mpr ⟨hφ1, hφ2⟩),
      atan2_mul_sin_cos hs (Set.mem_Ioc.mpr ⟨hψ1, hψ2⟩)]
  unfold anglesFromMatrix
  rw [if_pos hthr, hθof, hpair]

/-! ## C1: round trip in the regular case -/

theorem atan2_zero_one : atan2 0 1 = 0 := by
  unfold atan2
  rw [show (⟨1, 0⟩ : ℂ) = 1 from by apply Complex.ext <;> simp]
  exact Complex.arg_one

/-- C1 counterexample: for sequence X-Y-Z and angles (2π, 0, 0) — whose
middle angle 0 is strictly inside the regular domain — the round trip
returns (0, 0, 0): the first component differs from the original phi = 2π
by far more than 1e-9 (and is not equal to it over exact arithmetic). -/
theorem roundtrip_counterexample_two_pi :
    anglesFromMatrix 0 (matrixFromEuler 0 (fin3 (2 * π) 0 0)) = (0, 0, 0) ∧
    1 / 10 ^ 9 < |2 * π - 0| ∧ |(0 : ℝ)| < π / 2 - 1 / 10 ^ 6 := by
  have h3 := Real.pi_gt_three
  have e0 : matrixFromEuler 0 (fin3 (2 * π) 0 0) = mat3 1 0 0 0 1 0 0 0 1 := by
    funext i j
    fin_cases i <;> fin_cases j <;>
      simp [matrixFromEuler, Euler_info, Real.sin_two_pi, Real.cos_two_pi] <;> norm_num
  have e1 : altThetaVal 0 (mat3 1 0 0 0 1 0 0 0 1) = 1 := by
    unfold altThetaVal altThetaVal1 altThetaVal2 sinPhiRaw cosPhiRaw sinPsiRaw cosPsiRaw
    simp [Euler_info]
    norm_num [Real.sqrt_one]
  have e2 : thetaVal 0 (mat3 1 0 0 0 1 0 0 0 1) = 0 := rfl
  have e3 : thetaOf 0 (mat3 1 0 0 0 1 0 0 0 1) = 0 := by
    unfold thetaOf
    rw [e1, e2]
    norm_num [Euler_info, Real.arcsin_zero]
  have e4 : phiPsiRegular 0 (mat3 1 0 0 0 1 0 0 0 1) = (0, 0) := by
    simp only [phiPsiRegular]
    simp [Euler_info, sinPhiRaw, cosPhiRaw, sinPsiRaw, cosPsiRaw, atan2_zero_one]
  refine ⟨?_, ?_, ?_⟩
  · rw [e0]
    unfold anglesFromMatrix
    rw [if_pos (by rw [e1]; unfold gimbal_lock_threshold; norm_num), e3, e4]
  · rw [sub_zero, abs_of_pos (by positivity)]
    norm_num
    linarith
  · rw [abs_zero]
    norm_num
    linarith

/-- C1 amended: for every one of the twelve sequences and every angle
triple with phi and psi in the principal range (−π, π] and the middle angle
strictly bounded away from the class-specific singular value
(|theta| ≤ π/2 − 1e-6 for aerodynamics sequences; 1e-6 ≤ theta ≤ π − 1e-6
for astronomical sequences), extracting the Euler angles from the matrix
built from that triple returns exactly (phi, theta, psi) over exact real
arithmetic. -/
theorem roundtrip_regular_restricted (s : Fin 12) (φ θ ψ : ℝ)
    (hφ1 : -π < φ) (hφ2 : φ ≤ π) (hψ1 : -π < ψ) (hψ2 : ψ ≤ π)
    (hasym : (Euler_info s).is_aerodynamics_sequence = true →
      |θ| ≤ π / 2 - 1 / 10 ^ 6)
    (hsym : (Euler_info s).is_aerodynamics_sequence = false →
      1 / 10 ^ 6 ≤ θ ∧ θ ≤ π - 1 / 10 ^ 6) :
    anglesFromMatrix s (matrixFromEuler s (fin3 φ θ ψ)) = (φ, θ, ψ) := by
  fin_cases s
  · exact roundtrip_aero_even rfl rfl hφ1 hφ2 hψ1 hψ2 (hasym rfl)
      (by simp [thetaValRaw, matrixFromEuler, Euler_info] <;> ring)
      (by simp [sinPhiRaw, matrixFromEuler, Euler_info] <;> ring)
      (by simp [cosPhiRaw, matrixFromEuler, Euler_info] <;> ring)
      (by simp [sinPsiRaw, matrixFromEuler, Euler_info] <;> ring)
      (by simp [cosPsiRaw, matrixFromEuler, Euler_info] <;> ring)
  · exact roundtrip_aero_odd rfl rfl hφ1 hφ2 hψ1 hψ2 (hasym rfl)
      (by simp [thetaValRaw, matrixFromEuler, Euler_info] <;> ring)
      (by simp [sinPhiRaw, matrixFromEuler, Euler_info] <;> ring)
      (by simp [cosPhiRaw, matrixFromEuler, Euler_info] <;> ring)
      (by simp [sinPsiRaw, matrixFromEuler, Euler_info] <;> ring)
      (by simp [cosPsiRaw, matrixFromEuler, Euler_info] <;> ring)
  · exact roundtrip_aero_even rfl rfl hφ1 hφ2 hψ1 hψ2 (hasym rfl)
      (by simp [thetaValRaw, matrixFromEuler, Euler_info] <;> ring)
      (by simp [sinPhiRaw, matrixFromEuler, Euler_info] <;> ring)
      (by simp [cosPhiRaw, matrixFromEuler, Euler_info] <;> ring)
      (by simp [sinPsiRaw, matrixFromEuler, Euler_info] <;> ring)
      (by simp [cosPsiRaw, matrixFromEuler, Euler_info] <;> ring)
  · exact roundtrip_aero_odd rfl rfl hφ1 hφ2 hψ1 hψ2 (hasym rfl)
      (by simp [thetaValRaw, matrixFromEuler, Euler_info] <;> ring)
      (by simp [sinPhiRaw, matrixFromEuler, Euler_info] <;> ring)
      (by simp [cosPhiRaw, matrixFromEuler, Euler_info] <;> ring)
      (by simp [sinPsiRaw, matrixFromEuler, Euler_info] <;> ring)
      (by simp [cosPsiRaw, matrixFromEuler, Euler_info] <;> ring)
  · exact roundtrip_aero_even rfl rfl hφ1 hφ2 hψ1 hψ2 (hasym rfl)
      (by simp [thetaValRaw, matrixFromEuler, Euler_info] <;> ring)
      (by simp [sinPhiRaw, matrixFromEuler, Euler_info] <;> ring)
      (by simp [cosPhiRaw, matrixFromEuler, Euler_info] <;> ring)
      (by simp [sinPsiRaw, matrixFromEuler, Euler_info] <;> ring)
      (by simp [cosPsiRaw, matrixFromEuler, Euler_info] <;> ring)
  · exact roundtrip_aero_odd rfl rfl hφ1 hφ2 hψ1 hψ2 (hasym rfl)
      (by simp [thetaValRaw, matrixFromEuler, Euler_info] <;> ring)
      (by simp [sinPhiRaw, matrixFromEuler, Euler_info] <;> ring)
      (by simp [cosPhiRaw, matrixFromEuler, Euler_info] <;> ring)
      (by simp [sinPsiRaw, matrixFromEuler, Euler_info] <;> ring)
      (by simp [cosPsiRaw, matrixFromEuler, Euler_info] <;> ring)
  · exact roundtrip_astro_even rfl rfl hφ1 hφ2 hψ1 hψ2 (hsym rfl).1 (hsym rfl).2
      (by simp [thetaValRaw, matrixFromEuler, Euler_info] <;> ring)
      (by simp [sinPhiRaw, matrixFromEuler, Euler_info] <;> ring)
      (by simp [cosPhiRaw, matrixFromEuler, Euler_info] <;> ring)
      (by simp [sinPsiRaw, matrixFromEuler, Euler_info] <;> ring)
      (by simp [cosPsiRaw, matrixFromEuler, Euler_info] <;> ring)
  · exact roundtrip_astro_odd rfl rfl hφ1 hφ2 hψ1 hψ2 (hsym rfl).1 (hsym rfl).2
      (by simp [thetaValRaw, matrixFromEuler, Euler_info] <;> ring)
      (by simp [sinPhiRaw, matrixFromEuler, Euler_info] <;> ring)
      (by simp [cosPhiRaw, matrixFromEuler, Euler_info] <;> ring)
      (by simp [sinPsiRaw, matrixFromEuler, Euler_info] <;> ring)
      (by simp [cosPsiRaw, matrixFromEuler, Euler_info] <;> ring)
  · exact roundtrip_astro_even rfl rfl hφ1 hφ2 hψ1 hψ2 (hsym rfl).1 (hsym rfl).2
      (by simp [thetaValRaw, matrixFromEuler, Euler_info] <;> ring)
      (by simp [sinPhiRaw, matrixFromEuler, Euler_info] <;> ring)
      (by simp [cosPhiRaw, matrixFromEuler, Euler_info] <;> ring)
      (by simp [sinPsiRaw, matrixFromEuler, Euler_info] <;> ring)
      (by simp [cosPsiRaw, matrixFromEuler, Euler_info] <;> ring)
  · exact roundtrip_astro_odd rfl rfl hφ1 hφ2 hψ1 hψ2 (hsym rfl).1 (hsym rfl).2
      (by simp [thetaValRaw, matrixFromEuler, Euler_info] <;> ring)
      (by simp [sinPhiRaw, matrixFromEuler, Euler_info] <;> ring)
      (by simp [cosPhiRaw, matrixFromEuler, Euler_info] <;> ring)
      (by simp [sinPsiRaw, matrixFromEuler, Euler_info] <;> ring)
      (by simp [cosPsiRaw, matrixFromEuler, Euler_info] <;> ring)
  · exact roundtrip_astro_even rfl rfl hφ1 hφ2 hψ1 hψ2 (hsym rfl).1 (hsym rfl).2
      (by simp [thetaValRaw, matrixFromEuler, Euler_info] <;> ring)
      (by simp [sinPhiRaw, matrixFromEuler, Euler_info] <;> ring)
      (by simp [cosPhiRaw, matrixFromEuler, Euler_info] <;> ring)
      (by simp [sinPsiRaw, matrixFromEuler, Euler_info] <;> ring)
      (by simp [cosPsiRaw, matrixFromEuler, Euler_info] <;> ring)
  · exact roundtrip_astro_odd rfl rfl hφ1 hφ2 hψ1 hψ2 (hsym rfl).1 (hsym rfl).2
      (by simp [thetaValRaw, matrixFromEuler, Euler_info] <;> ring)
      (by simp [sinPhiRaw, matrixFromEuler, Euler_info] <;> ring)
      (by simp [cosPhiRaw, matrixFromEuler, Euler_info] <;> ring)
      (by simp [sinPsiRaw, matrixFromEuler, Euler_info] <;> ring)
      (by simp [cosPsiRaw, matrixFromEuler, Euler_info] <;> ring)

/-- Witness for C1 (amended) at sequence X-Y-Z and angles (0, 0, 0). -/
theorem roundtrip_regular_restricted_witness :
    (-π < (0 : ℝ) ∧ (0 : ℝ) ≤ π ∧ |(0 : ℝ)| ≤ π / 2 - 1 / 10 ^ 6) ∧
    anglesFromMatrix 0 (matrixFromEuler 0 (fin3 0 0 0)) = (0, 0, 0) := by
  have h3 := Real.pi_gt_three
  refine ⟨⟨by linarith, by linarith, by rw [abs_zero]; linarith⟩, ?_⟩
  exact roundtrip_regular_restricted 0 0 0 0 (by linarith) (by linarith)
    (by linarith) (by linarith)
    (fun _ => by rw [abs_zero]; linarith)
    (fun h => by simp [Euler_info] at h)

/-! ## C8: unit-norm postcondition for the quaternion construction -/

theorem quatNormSq_mul (p q : Quat) :
    quatNormSq (quatMul p q) = quatNormSq p * quatNormSq q := by
  unfold quatNormSq quatMul
  simp only [fin3_zero, fin3_one, fin3_two]
  ring

theorem elemQuat_normSq (a : Fin 3) (t : ℝ) : quatNormSq (elemQuat a t) = 1 := by
  unfold quatNormSq elemQuat
  fin_cases a <;> simp <;> linear_combination Real.sin_sq_add_cos_sq (0.5 * t)

theorem quatNorm_eq_one_of {q : Quat} (h : quatNormSq q = 1) : quatNorm q = 1 := by
  unfold quatNorm
  rw [h]
  exact Real.sqrt_one

theorem quatNormalize_of_normSq_one {q : Quat} (h : quatNormSq q = 1) :
    quatNormalize q = q := by
  unfold quatNormalize
  rw [if_neg (by rw [quatNorm_eq_one_of h]; norm_num)]
  rw [quatNorm_eq_one_of h]
  cases q
  simp

theorem quatFromEuler_normSq (s : Fin 12) (a : Fin 3 → ℝ) :
    quatNormSq (quatFromEuler s a) = 1 := by
  simp only [quatFromEuler]
  have h2 := elemQuat_normSq ((Euler_info s).indices 2) (a 2)
  have h1 := elemQuat_normSq ((Euler_info s).indices 1) (a 1)
  have h0 := elemQuat_normSq ((Euler_info s).indices 0) (a 0)
  have hm : quatNormSq
      (quatMul
        (quatMul (elemQuat ((Euler_info s).indices 2) (a 2))
          (elemQuat ((Euler_info s).indices 1) (a 1)))
        (elemQuat ((Euler_info s).indices 0) (a 0))) = 1 := by
    rw [quatNormSq_mul, quatNormSq_mul, h2, h1, h0]
    ring
  rw [quatNormalize_of_normSq_one hm]
  exact hm

/-- C8: for every valid sequence identifier and every input angle triple,
the quaternion produced by `compute_quaternion_from_euler_angles` has norm
exactly 1 over exact real arithmetic (three unit elementary quaternions are
composed and the result normalized). -/
theorem quaternion_unit_norm (euler_sequence : ℤ) (a : Fin 3 → ℝ) (q : Quat)
    (h0 : 0 ≤ euler_sequence) (h1 : euler_sequence ≤ 11) :
    quatNorm (compute_quaternion_from_euler_angles euler_sequence a q).1 = 1 := by
  unfold compute_quaternion_from_euler_angles
  rw [dif_neg (by omega : ¬(euler_sequence < 0 ∨ 11 < euler_sequence))]
  exact quatNorm_eq_one_of (quatFromEuler_normSq _ a)

/-- Witness for C8 at sequence 0 and angles (0, 0, 0). -/
theorem quaternion_unit_norm_witness :
    (0 : ℤ) ≤ 0 ∧ (0 : ℤ) ≤ 11 ∧
    quatNorm (compute_quaternion_from_euler_angles 0 (fin3 0 0 0) ⟨1, fin3 0 0 0⟩).1 = 1 :=
  ⟨le_refl 0, by norm_num,
   quaternion_unit_norm 0 (fin3 0 0 0) ⟨1, fin3 0 0 0⟩ (le_refl 0) (by norm_num)⟩

/-! ## C6: the concrete X-Y-Z scenario at angles (0.1, 0.2, 0.3) -/

theorem trig_bounds_c6 :
    ((0.0998 : ℝ) ≤ sin 0.1 ∧ sin 0.1 ≤ 0.0999) ∧
    ((0.9949 : ℝ) ≤ cos 0.1 ∧ cos 0.1 ≤ 0.9951) ∧
    ((0.1985 : ℝ) ≤ sin 0.2 ∧ sin 0.2 ≤ 0.1988) ∧
    ((0.9799 : ℝ) ≤ cos 0.2 ∧ cos 0.2 ≤ 0.9801) ∧
    ((0.295 : ℝ) ≤ sin 0.3 ∧ sin 0.3 ≤ 0.296) ∧
    ((0.9545 : ℝ) ≤ cos 0.3 ∧ cos 0.3 ≤ 0.9555) := by
  have ha1 : |(0.1 : ℝ)| = 0.1 := abs_of_nonneg (by norm_num)
  have ha2 : |(0.2 : ℝ)| = 0.2 := abs_of_nonneg (by norm_num)
  have ha3 : |(0.3 : ℝ)| = 0.3 := abs_of_nonneg (by norm_num)
  have hs1 := Real.sin_bound (x := 0.1) (by rw [ha1]; norm_num)
  have hc1 := Real.cos_bound (x := 0.1) (by rw [ha1]; norm_num)
  have hs2 := Real.sin_bound (x := 0.2) (by rw [ha2]; norm_num)
  have hc2 := Real.cos_bound (x := 0.2) (by rw [ha2]; norm_num)
  have hs3 := Real.sin_bound (x := 0.3) (by rw [ha3]; norm_num)
  have hc3 := Real.cos_bound (x := 0.3) (by rw [ha3]; norm_num)
  rw [ha1] at hs1 hc1
  rw [ha2] at hs2 hc2
  rw [ha3] at hs3 hc3
  obtain ⟨l1, u1⟩ := abs_le.mp hs1
  obtain ⟨l2, u2⟩ := abs_le.mp hc1
  obtain ⟨l3, u3⟩ := abs_le.mp hs2
  obtain ⟨l4, u4⟩ := abs_le.mp hc2
  obtain ⟨l5, u5⟩ := abs_le.mp hs3
  obtain ⟨l6, u6⟩ := abs_le.mp hc3
  norm_num at l1 u1 l2 u2 l3 u3 l4 u4 l5 u5 l6 u6
  refine ⟨⟨?_, ?_⟩, ⟨?_, ?_⟩, ⟨?_, ?_⟩, ⟨?_, ?_⟩, ⟨?_, ?_⟩, ⟨?_, ?_⟩⟩ <;> linarith

theorem mul_bounds {a b la ua lb ub : ℝ} (h1 : la ≤ a) (h2 : a ≤ ua) (h3 : lb ≤ b)
    (h4 : b ≤ ub) (hla : 0 ≤ la) (hlb : 0 ≤ lb) :
    la * lb ≤ a * b ∧ a * b ≤ ua * ub :=
  ⟨mul_le_mul h1 h3 hlb (hla.trans h1),
   mul_le_mul h2 h4 (hlb.trans h3) ((hla.trans h1).trans h2)⟩

theorem c6_entry_00 :
    matrixFromEuler 0 (fin3 0.1 0.2 0.3) 0 0 = cos 0.3 * cos 0.2 := by
  simp [matrixFromEuler, Euler_info] <;> ring

theorem c6_entry_01 :
    matrixFromEuler 0 (fin3 0.1 0.2 0.3) 0 1 =
      sin 0.3 * cos 0.1 + cos 0.3 * sin 0.2 * sin 0.1 := by
  simp [matrixFromEuler, Euler_info] <;> ring

theorem c6_entry_02 :
    matrixFromEuler 0 (fin3 0.1 0.2 0.3) 0 2 =
      sin 0.3 * sin 0.1 - cos 0.3 * sin 0.2 * cos 0.1 := by
  simp [matrixFromEuler, Euler_info] <;> ring

/-- C6 counterexample: for sequence X-Y-Z and angles (0.1, 0.2, 0.3), the
computed matrix entry [0][1] exceeds 0.312 and thus differs from the
claimed value 0.2896 by more than 0.02: row 0 of the produced matrix is
approximately (0.9363, 0.3130, −0.1593), not (0.9363, 0.2896, −0.1987). -/
theorem concrete_scenario_counterexample :
    2 / 10 ^ 2 < |matrixFromEuler 0 (fin3 0.1 0.2 0.3) 0 1 - 0.2896| := by
  obtain ⟨hs1, hc1, hs2, hc2, hs3, hc3⟩ := trig_bounds_c6
  have hp1 := mul_bounds hc3.1 hc3.2 hs2.1 hs2.2 (by norm_num) (by norm_num)
  have hp2 := mul_bounds hp1.1 hp1.2 hs1.1 hs1.2 (by norm_num) (by norm_num)
  have hp3 := mul_bounds hs3.1 hs3.2 hc1.1 hc1.2 (by norm_num) (by norm_num)
  have hl2 := hp2.1
  have hl3 := hp3.1
  norm_num at hl2 hl3
  rw [c6_entry_01, abs_of_pos (by linarith)]
  norm_num
  linarith

/-- C6 amended: for sequence X-Y-Z with angles (0.1, 0.2, 0.3) radians,
the computed matrix has row 0 approximately equal to
(0.9363, 0.3130, −0.1593) (each entry within 2e-3), and the extraction
applied to that matrix returns exactly (0.1, 0.2, 0.3) over exact real
arithmetic. -/
theorem concrete_scenario_corrected :
    |matrixFromEuler 0 (fin3 0.1 0.2 0.3) 0 0 - 0.9363| ≤ 2 / 10 ^ 3 ∧
    |matrixFromEuler 0 (fin3 0.1 0.2 0.3) 0 1 - 0.3130| ≤ 2 / 10 ^ 3 ∧
    |matrixFromEuler 0 (fin3 0.1 0.2 0.3) 0 2 - (-0.1593)| ≤ 2 / 10 ^ 3 ∧
    anglesFromMatrix 0 (matrixFromEuler 0 (fin3 0.1 0.2 0.3)) = (0.1, 0.2, 0.3) := by
  obtain ⟨hs1, hc1, hs2, hc2, hs3, hc3⟩ := trig_bounds_c6
  have hp1 := mul_bounds hc3.1 hc3.2 hs2.1 hs2.2 (by norm_num) (by norm_num)
  have hp2 := mul_bounds hp1.1 hp1.2 hs1.1 hs1.2 (by norm_num) (by norm_num)
  have hp3 := mul_bounds hs3.1 hs3.2 hc1.1 hc1.2 (by norm_num) (by norm_num)
  have hp4 := mul_bounds hc3.1 hc3.2 hc2.1 hc2.2 (by norm_num) (by norm_num)
  have hp5 := mul_bounds hs3.1 hs3.2 hs1.1 hs1.2 (by norm_num) (by norm_num)
  have hp6 := mul_bounds hp1.1 hp1.2 hc1.1 hc1.2 (by norm_num) (by norm_num)
  obtain ⟨hl2, hu2⟩ := hp2
  obtain ⟨hl3, hu3⟩ := hp3
  obtain ⟨hl4, hu4⟩ := hp4
  obtain ⟨hl5, hu5⟩ := hp5
  obtain ⟨hl6, hu6⟩ := hp6
  norm_num at hl2 hu2 hl3 hu3 hl4 hu4 hl5 hu5 hl6 hu6
  have h3 := Real.pi_gt_three
  refine ⟨?_, ?_, ?_, ?_⟩
  · rw [c6_entry_00, abs_le]
    norm_num
    constructor <;> linarith
  · rw [c6_entry_01, abs_le]
    norm_num
    constructor <;> linarith
  · rw [c6_entry_02, abs_le]
    norm_num
    constructor <;> linarith
  · exact roundtrip_aero_even rfl rfl (by linarith) (by linarith) (by linarith)
      (by linarith)
      (by rw [abs_of_nonneg (by norm_num : (0 : ℝ) ≤ 0.2)]; norm_num; linarith)
      (by simp [thetaValRaw, matrixFromEuler, Euler_info] <;> ring)
      (by simp [sinPhiRaw, matrixFromEuler, Euler_info] <;> ring)
      (by simp [cosPhiRaw, matrixFromEuler, Euler_info] <;> ring)
      (by simp [sinPsiRaw, matrixFromEuler, Euler_info] <;> ring)
      (by simp [cosPsiRaw, matrixFromEuler, Euler_info] <;> ring)

end

end JeodOrientation
